import Mathlib

/-!
Verification of the `mdbook-shiftinclude` preprocessor core against its
natural-language specification.

The development shallowly embeds the two source files:
  * `src/string.rs` — the shift engine and the range / anchor extractors;
  * `src/main.rs`   — the selector parser, the directive scanner and the
    recursive resolver `replace_all`.

Modelling conventions:
  * Rust `String` / `&str` become Lean `String`; character-level operations
    (`chars()`, `skip`, `take_while`, ...) operate on `String.toList`.
  * Rust `usize` becomes `Nat`; `saturating_sub` is Lean's truncated `Nat`
    subtraction; `usize::from_str` overflow is modelled explicitly.
  * Byte indices produced by the regex scanner are modelled as character
    indices; the resolver slices the scanned text at match boundaries only,
    so the assembled output is the same string either way.
  * Logging (`error!` / `warn!`) is a side channel that does not influence
    any returned value; it is dropped from the model.
  * File-system access (`fs::read_to_string`) is a parameter
    `fs : String → Option String` from resolved paths to file contents.
-/

/-- Unicode `White_Space` code points, as matched by Rust's
`char::is_whitespace` and by the regex classes `\s` used in the sources. -/
def rustIsWhitespace (c : Char) : Bool :=
  let n := c.toNat
  n = 0x09 || n = 0x0A || n = 0x0B || n = 0x0C || n = 0x0D || n = 0x20 ||
  n = 0x85 || n = 0xA0 || n = 0x1680 || (0x2000 ≤ n && n ≤ 0x200A) ||
  n = 0x2028 || n = 0x2029 || n = 0x202F || n = 0x205F || n = 0x3000

/-- Number of bytes of the UTF-8 encoding of a character, as used by Rust's
`String::len` (which counts bytes, not characters). -/
def utf8CharLen (c : Char) : Nat :=
  if c.toNat < 0x80 then 1
  else if c.toNat < 0x800 then 2
  else if c.toNat < 0x10000 then 3
  else 4

/-- Byte length of a list of characters (Rust `String::len`). -/
def utf8Len (cs : List Char) : Nat :=
  (cs.map utf8CharLen).sum

/-- Strip one trailing carriage return, as Rust's `str::lines` does for
lines terminated by `\r\n`. -/
def dropCR (l : List Char) : List Char :=
  if l.getLast? = some '\r' then l.dropLast else l

/-- Accumulator-based worker for `rustLines`; `acc` holds the current line
reversed. A final empty segment (text ending in a newline) produces no
extra line, matching Rust `str::lines`. -/
def rustLinesGo (acc : List Char) : List Char → List String
  | [] => if acc = [] then [] else [String.mk acc.reverse]
  | c :: rest =>
    if c = '\n' then String.mk (dropCR acc.reverse) :: rustLinesGo [] rest
    else rustLinesGo (c :: acc) rest

/-- Rust `str::lines`: split on `\n`, strip a trailing `\r` from each
terminated line, and do not report a final empty line. -/
def rustLines (s : String) : List String :=
  rustLinesGo [] s.toList

/-- Rust `Vec::join("\n")`. -/
def joinNL : List String → String
  | [] => ""
  | [l] => l
  | l :: rest => l ++ "\n" ++ joinNL rest

/-- Characters of `s` in positions `[a, b)` (the resolver's `&s[a..b]`). -/
def sliceChars (s : String) (a b : Nat) : String :=
  String.mk ((s.toList.drop a).take (b - a))

/-- Characters of `s` from position `a` on (the resolver's `&s[a..]`). -/
def sliceFrom (s : String) (a : Nat) : String :=
  String.mk (s.toList.drop a)

/-- Does `needle` occur at the head of `hay`? -/
def segAt : List Char → List Char → Bool
  | [], _ => true
  | _ :: _, [] => false
  | n :: ns, h :: hs => n = h && segAt ns hs

/-- Does `needle` occur anywhere inside `hay`? -/
def containsSeg (needle : List Char) : List Char → Bool
  | [] => segAt needle []
  | c :: hs => segAt needle (c :: hs) || containsSeg needle (hs : List Char)

/-! ## `src/string.rs`: the shift engine -/

/-- Indication of whether to shift included text (`string.rs`). -/
inductive Shift where
  | None : Shift
  | Left : Nat → Shift
  | Right : Nat → Shift
  | Auto : Shift
deriving DecidableEq, Repr

/-- Shift with the `Auto` mode already resolved (`string.rs`). -/
inductive ExplicitShift where
  | None : ExplicitShift
  | Left : Nat → ExplicitShift
  | Right : Nat → ExplicitShift
deriving DecidableEq, Repr

/-- Leading whitespace of one line (`line.chars().take_while(is_whitespace)`). -/
def leadingWS (l : String) : List Char :=
  l.toList.takeWhile rustIsWhitespace

/-- Common prefix of two character sequences
(`common.chars().zip(ws).take_while(|(a, b)| a == b).map(|(a, _b)| a)`). -/
def zipCommon : List Char → List Char → List Char
  | a :: as_, b :: bs => if a = b then a :: zipCommon as_ bs else []
  | _, _ => []

/-- One step of the fold inside `common_leading_ws`: empty lines are
skipped, the first non-empty line seeds the accumulator, later lines are
intersected with it. -/
def clwStep (acc : Option (List Char)) (line : String) : Option (List Char) :=
  if line = "" then acc
  else
    match acc with
    | some common => some (zipCommon common (leadingWS line))
    | none => some (leadingWS line)

/-- Longest whitespace prefix common to all non-empty lines (`string.rs`
`common_leading_ws`); the Rust function returns it as a `String`. -/
def common_leading_ws (lines : List String) : List Char :=
  (lines.foldl clwStep none).getD []

/-- Resolve a `Shift` to an `ExplicitShift` (`string.rs` `calculate_shift`).
Note that the Rust code takes `common_leading_ws(lines).len()`, the BYTE
length of the common prefix, while `shift_line` skips characters. -/
def calculate_shift (lines : List String) (shift : Shift) : ExplicitShift :=
  match shift with
  | Shift.None => ExplicitShift.None
  | Shift.Left l => ExplicitShift.Left l
  | Shift.Right r => ExplicitShift.Right r
  | Shift.Auto => ExplicitShift.Left (utf8Len (common_leading_ws lines))

/-- Shift a single line (`string.rs` `shift_line`). The `log::error!` call
for left-shifting away non-whitespace is a diagnostic only; the returned
value strips the characters regardless. -/
def shift_line (l : String) (shift : ExplicitShift) : String :=
  match shift with
  | ExplicitShift.None => l
  | ExplicitShift.Right n => String.mk (List.replicate n ' ') ++ l
  | ExplicitShift.Left skip => String.mk (l.toList.drop skip)

/-- Shift a set of lines (`string.rs` `shift_lines`). -/
def shift_lines (lines : List String) (shift : Shift) : List String :=
  let sh := calculate_shift lines shift
  lines.map (fun l => shift_line l sh)

/-! ## `src/string.rs`: the range extractor -/

/-- Line-range shapes from `main.rs` (`LineRange`), mirroring the four Rust
range types it wraps. -/
inductive LineRange where
  | Range : Nat → Nat → LineRange
  | RangeFrom : Nat → LineRange
  | RangeTo : Nat → LineRange
  | RangeFull : LineRange
deriving DecidableEq, Repr

/-- Rust `std::ops::Bound`, as returned by `RangeBounds` on `LineRange`. -/
inductive RBound where
  | included : Nat → RBound
  | excluded : Nat → RBound
  | unbounded : RBound
deriving DecidableEq, Repr

/-- Start bound of a `LineRange` (`impl RangeBounds for LineRange`). -/
def LineRange.startBound : LineRange → RBound
  | LineRange.Range a _ => RBound.included a
  | LineRange.RangeFrom a => RBound.included a
  | LineRange.RangeTo _ => RBound.unbounded
  | LineRange.RangeFull => RBound.unbounded

/-- End bound of a `LineRange` (`impl RangeBounds for LineRange`). -/
def LineRange.endBound : LineRange → RBound
  | LineRange.Range _ b => RBound.excluded b
  | LineRange.RangeFrom _ => RBound.unbounded
  | LineRange.RangeTo b => RBound.excluded b
  | LineRange.RangeFull => RBound.unbounded

/-- Take a range of lines from a string, shifting all lines left or right
(`string.rs` `take_lines_with_shift`). `end.saturating_sub(start)` is
Lean's truncated subtraction on `Nat`. -/
def take_lines_with_shift (s : String) (r : LineRange) (shift : Shift) : String :=
  let start := match r.startBound with
    | RBound.excluded n => n + 1
    | RBound.included n => n
    | RBound.unbounded => 0
  let lines := (rustLines s).drop start
  let retained := match r.endBound with
    | RBound.excluded e => lines.take (e - start)
    | RBound.included e => lines.take ((e + 1) - start)
    | RBound.unbounded => lines
  joinNL (shift_lines retained shift)

/-! ## `src/string.rs`: the anchor extractor -/

/-- Characters allowed in an anchor name: the regex class `[\w_-]`.
The regex `\w` is modelled over its ASCII range (the repository only uses
ASCII anchor names). -/
def anchorNameChar (c : Char) : Bool :=
  c.isAlphanum || c = '_' || c = '-'

/-- Match the pattern `MARKER\s*([\w_-]+)` at the head of `cs`, returning
the captured name. -/
def matchMarkerAt (marker : List Char) (cs : List Char) : Option String :=
  if segAt marker cs then
    let after := (cs.drop marker.length).dropWhile rustIsWhitespace
    let name := after.takeWhile anchorNameChar
    if name = [] then none else some (String.mk name)
  else none

/-- Leftmost match of `MARKER\s*([\w_-]+)` anywhere in a line, returning
the captured name (the `Regex::captures` calls on `ANCHOR_START` /
`ANCHOR_END`). -/
def findAnchorCapture (marker : List Char) : List Char → Option String
  | [] => none
  | c :: rest =>
    match matchMarkerAt marker (c :: rest) with
    | some name => some name
    | none => findAnchorCapture marker rest

/-- Literal part of the `ANCHOR_START` regex. -/
def startMarker : List Char := "ANCHOR:".toList

/-- Literal part of the `ANCHOR_END` regex. -/
def endMarker : List Char := "ANCHOR_END:".toList

/-- Line loop of `take_anchored_lines_with_shift`: `found` is the
`anchor_found` flag; a matching end marker breaks out of the loop. -/
def anchoredLoop (anchor : String) : List String → Bool → List String
  | [], _ => []
  | l :: rest, true =>
    match findAnchorCapture endMarker l.toList with
    | some name => if name = anchor then [] else anchoredLoop anchor rest true
    | none =>
      if (findAnchorCapture startMarker l.toList).isSome then
        anchoredLoop anchor rest true
      else
        l :: anchoredLoop anchor rest true
  | l :: rest, false =>
    match findAnchorCapture startMarker l.toList with
    | some name => anchoredLoop anchor rest (name = anchor)
    | none => anchoredLoop anchor rest false

/-- Take anchored lines from a string, shifting all lines left or right
(`string.rs` `take_anchored_lines_with_shift`). -/
def take_anchored_lines_with_shift (s : String) (anchor : String) (shift : Shift) : String :=
  joinNL (shift_lines (anchoredLoop anchor (rustLines s) false) shift)

/-! ## `src/main.rs`: constants and link data model -/

/-- Maximum nesting depth for recursive includes (`main.rs`). -/
def MAX_LINK_NESTED_DEPTH : Nat := 10

/-- Either a line range or an anchor name (`main.rs` `RangeOrAnchor`). -/
inductive RangeOrAnchor where
  | Range : LineRange → RangeOrAnchor
  | Anchor : String → RangeOrAnchor
deriving DecidableEq, Repr

/-- Parsed directive type (`main.rs` `LinkType`). `PathBuf` is modelled as
a `String`. Note that an `Include` carries only a path and a
`RangeOrAnchor`; no shift is part of the parsed directive. -/
inductive LinkType where
  | Escaped : LinkType
  | Include : String → RangeOrAnchor → LinkType
deriving DecidableEq, Repr

/-! ## `src/main.rs`: the path/selector parser -/

/-- Rust `usize::from_str`: an optional leading `+`, then one or more ASCII
digits, rejecting the empty digit string and values above `usize::MAX`
(64-bit). -/
def parseUsize (s : String) : Option Nat :=
  let cs := s.toList
  let ds := if cs.head? = some '+' then cs.tail else cs
  if ds = [] then none
  else if ds.all (fun c => c.isDigit) then
    let v := ds.foldl (fun acc c => acc * 10 + (c.toNat - 48)) 0
    if v ≤ 2 ^ 64 - 1 then some v else none
  else none

/-- Rust `str::splitn(n, ':')`: split on `:` into at most `n` pieces, the
last piece keeping any remaining separators. -/
def splitnColon : Nat → List Char → List String
  | 0, _ => []
  | 1, cs => [String.mk cs]
  | n + 2, cs =>
    let head := cs.takeWhile (fun c => ¬ (c = ':'))
    let rest := cs.drop head.length
    match rest with
    | [] => [String.mk head]
    | _ :: rest2 => String.mk head :: splitnColon (n + 1) rest2

/-- Outcome of the `start` computation in `parse_range_or_anchor`: either a
parsed optional start index, or the early `return` of an anchor name. -/
inductive StartResult where
  | start : Option Nat → StartResult
  | anchor : String → StartResult
deriving DecidableEq, Repr

/-- Selector parser (`main.rs` `parse_range_or_anchor`). The 1-based line
number is converted with `value.saturating_sub(1)`, which is Lean's `Nat`
subtraction. -/
def parse_range_or_anchor (parts : Option String) : RangeOrAnchor :=
  let fields := splitnColon 3 (parts.getD "").toList
  let next_element := fields.head?
  let startR : StartResult :=
    match next_element with
    | some v =>
      match parseUsize v with
      | some value => StartResult.start (some (value - 1))
      | none => if v = "" then StartResult.start none else StartResult.anchor v
    | none => StartResult.start none
  match startR with
  | StartResult.anchor a => RangeOrAnchor.Anchor a
  | StartResult.start start =>
    let endField := fields[1]?
    let endP := endField.map parseUsize
    match start, endP with
    | some st, some (some en) => RangeOrAnchor.Range (LineRange.Range st en)
    | some st, some none => RangeOrAnchor.Range (LineRange.RangeFrom st)
    | some st, none => RangeOrAnchor.Range (LineRange.Range st (st + 1))
    | none, some (some en) => RangeOrAnchor.Range (LineRange.RangeTo en)
    | none, some none => RangeOrAnchor.Range LineRange.RangeFull
    | none, none => RangeOrAnchor.Range LineRange.RangeFull

/-- Path + selector parser (`main.rs` `parse_include_path`): split the
token on the first colon; the part before is the path, the rest feeds
`parse_range_or_anchor`. -/
def parse_include_path (path : String) : LinkType :=
  let parts := splitnColon 2 path.toList
  LinkType.Include (parts.headD "") (parse_range_or_anchor parts[1]?)

/-! ## `src/main.rs`: the directive scanner

The regex in `find_links` is (in `(?x)` mode):
`\\\{\{\#.*\}\}` (an escaped link) or
`\{\{\s*\#([a-zA-Z0-9_]+)\s+([^}]+)\}\}` (a directive with a name and a
payload). The scanner below reproduces the leftmost, non-overlapping
semantics of `Regex::captures_iter` for this fixed pattern; greedy
sub-patterns whose character classes are disjoint from what must follow
them reduce to maximal munch, and the single genuine backtracking case
(an all-whitespace payload, where `\s+` gives one character back to
`[^}]+`) is handled explicitly. -/

/-- One regex match: character span, matched text, and for a non-escaped
match its two capture groups (link type name, payload). -/
structure RMatch where
  start : Nat
  stop : Nat
  text : String
  groups : Option (String × String)
deriving DecidableEq, Repr

/-- Track the rightmost position of a `\x7d\x7d` pair while scanning the
segment consumed by the greedy `.*` of the escaped-link alternative.
`prevBrace` records whether the previous character was a closing brace. -/
def lastBrkGo (prevBrace : Bool) (i : Nat) (best : Option Nat) : List Char → Option Nat
  | [] => best
  | c :: rest =>
    if c = '}' then
      if prevBrace then lastBrkGo true (i + 1) (some (i - 1)) rest
      else lastBrkGo true (i + 1) best rest
    else lastBrkGo false (i + 1) best rest

/-- Index of the last two-closing-brace pair in a segment, if any. -/
def lastBrkPair (seg : List Char) : Option Nat :=
  lastBrkGo false 0 none seg

/-- Match the escaped-link alternative `\\\{\{\#.*\}\}` at the head of
`cs`; `.` does not match a newline, and the greedy `.*` makes the match
run to the last closing pair on the line. Returns the match length. -/
def matchEscapedAt (cs : List Char) : Option Nat :=
  match cs with
  | '\\' :: '{' :: '{' :: '#' :: rest =>
    let seg := rest.takeWhile (fun c => ¬ (c = '\n'))
    match lastBrkPair seg with
    | some j => some (4 + j + 2)
    | none => none
  | _ => none

/-- Characters of the regex class `[a-zA-Z0-9_]` (the link type name). -/
def linkTypeChar (c : Char) : Bool :=
  c.isAlphanum || c = '_'

/-- Match the directive alternative `\{\{\s*\#([a-zA-Z0-9_]+)\s+([^}]+)\}\}`
at the head of `cs`. Returns the match length and the two capture groups.
When the maximal `[^}]+` run after the separating whitespace is empty, the
regex backtracks one whitespace character into the payload group, which
requires at least two whitespace characters overall. -/
def matchIncludeAt (cs : List Char) : Option (Nat × String × String) :=
  match cs with
  | '{' :: '{' :: rest =>
    let wsA := rest.takeWhile rustIsWhitespace
    match rest.drop wsA.length with
    | '#' :: r2 =>
      let typ := r2.takeWhile linkTypeChar
      if typ = [] then none
      else
        let r3 := r2.drop typ.length
        let ws := r3.takeWhile rustIsWhitespace
        if ws = [] then none
        else
          let r4 := r3.drop ws.length
          let payload := r4.takeWhile (fun c => ¬ (c = '}'))
          let fullLen := 2 + wsA.length + 1 + typ.length + ws.length + payload.length + 2
          if payload = [] then
            match ws.getLast?, r4 with
            | some w, '}' :: '}' :: _ =>
              if 2 ≤ ws.length then
                some (fullLen, String.mk typ, String.mk [w])
              else none
            | _, _ => none
          else
            match r4.drop payload.length with
            | '}' :: '}' :: _ => some (fullLen, String.mk typ, String.mk payload)
            | _ => none
    | _ => none
  | _ => none

/-- Scan for all non-overlapping, leftmost regex matches. The fuel starts
at the text length; every step advances at least one character, so the
fuel never runs out before the text does. -/
def scanLinks : Nat → List Char → Nat → List RMatch
  | 0, _, _ => []
  | _, [], _ => []
  | fuel + 1, c :: rest, i =>
    let cs := c :: rest
    match matchEscapedAt cs with
    | some len =>
      ⟨i, i + len, String.mk (cs.take len), none⟩ :: scanLinks fuel (cs.drop len) (i + len)
    | none =>
      match matchIncludeAt cs with
      | some (len, typ, payload) =>
        ⟨i, i + len, String.mk (cs.take len), some (typ, payload)⟩ ::
          scanLinks fuel (cs.drop len) (i + len)
      | none => scanLinks fuel rest (i + 1)

/-- First whitespace-separated token of a string
(`rest.split_whitespace().next()`). -/
def firstToken (s : String) : Option String :=
  let t := (s.toList.dropWhile rustIsWhitespace).takeWhile (fun c => ¬ rustIsWhitespace c)
  if t = [] then none else some (String.mk t)

/-- A located, parsed directive (`main.rs` `Link`). -/
structure Link where
  start_index : Nat
  end_index : Nat
  link_type : LinkType
  link_text : String
deriving DecidableEq, Repr

/-- Build a `Link` from a regex match (`main.rs` `Link::from_capture`):
a named match parses as an include only when the name is `include` and the
payload has a first token; an unnamed match is an escaped link when it
starts with the escape character. -/
def linkFromMatch (m : RMatch) : Option Link :=
  match m.groups with
  | some (typ, rest) =>
    match firstToken rest with
    | some pth => if typ = "include" then some ⟨m.start, m.stop, parse_include_path pth, m.text⟩ else none
    | none => none
  | none =>
    if m.text.toList.head? = some '\\' then
      some ⟨m.start, m.stop, LinkType.Escaped, m.text⟩
    else none

/-- All links of a text block (`main.rs` `find_links` + `LinkIter`): regex
matches that do not parse to a `Link` are skipped. -/
def findLinks (s : String) : List Link :=
  (scanLinks s.toList.length s.toList 0).filterMap linkFromMatch

/-! ## `src/main.rs`: paths and rendering

Paths are modelled as plain strings: `join` appends with a `/` separator
(an absolute right operand replaces the base), `parent` drops the final
component. This covers the forms the resolver builds; exotic cases
(trailing separators, `..`) are outside every claim. -/

/-- Simplified `Path::join`. -/
def pathJoin (base p : String) : String :=
  if p.toList.head? = some '/' then p
  else if base = "" then p
  else base ++ "/" ++ p

/-- Simplified `Path::parent`, as a total function: the parent of a
single-component relative path is `""`, as in Rust. -/
def pathParent (p : String) : String :=
  let cs := p.toList
  if cs.contains '/' then
    String.mk (((cs.reverse.dropWhile (fun c => ¬ (c = '/'))).drop 1).reverse)
  else ""

/-- Directory for recursive resolution (`main.rs` `return_relative_path`):
the parent of the included file resolved against the base. -/
def return_relative_path (base relative : String) : String :=
  pathParent (pathJoin base relative)

/-- New base directory per link type (`main.rs` `LinkType::relative_path`):
escaped links have none. -/
def LinkType.relative_path (lt : LinkType) (base : String) : Option String :=
  match lt with
  | LinkType.Escaped => none
  | LinkType.Include p _ => some (return_relative_path base p)

/-- Modelled from the spec: `main.rs` imports `take_lines` from the string
module, but no function of that name appears in the sources (only
`take_lines_with_shift` does). Per the spec's Range Extractor (§4.3) it
selects the requested line range; the call site passes no shift, so none
is applied. -/
def take_lines (s : String) (r : LineRange) : String :=
  take_lines_with_shift s r Shift.None

/-- Modelled from the spec: `main.rs` imports `take_anchored_lines` from
the string module, but no function of that name appears in the sources
(only `take_anchored_lines_with_shift` does). Per the spec's Anchor
Extractor (§4.3) it extracts the anchored region; the call site passes no
shift, so none is applied. -/
def take_anchored_lines (s : String) (anchor : String) : String :=
  take_anchored_lines_with_shift s anchor Shift.None

/-- Render one link (`main.rs` `Link::render_with_path`): an escaped link
renders to its text without the leading escape character (one byte, here
one character, since the match starts with `\`); an include reads the
target file and extracts the selected lines. The `with_context` error
message is a diagnostic only; failure is modelled as `none`. -/
def renderWithPath (fs : String → Option String) (base : String) (link : Link) : Option String :=
  match link.link_type with
  | LinkType.Escaped => some (String.mk (link.link_text.toList.drop 1))
  | LinkType.Include pat roa =>
    let target := pathJoin base pat
    match fs target with
    | some s =>
      some (match roa with
        | RangeOrAnchor.Range range => take_lines s range
        | RangeOrAnchor.Anchor anchor => take_anchored_lines s anchor)
    | none => none

/-! ## `src/main.rs`: the resolver -/

/-- Occurrence loop of `replace_all`. The Rust code pushes onto an output
buffer `replaced`; here each push is a string concatenation. Per link:
the gap text since `prev` is appended; a successful render is either
recursively resolved (depth below the ceiling, include link), spliced
directly (escaped link), or DISCARDED (depth at the ceiling, where the
Rust code only logs "Stack depth exceeded" and appends nothing); on a
failed render the cursor moves back to the link's start so the raw
directive text reappears in the next gap. -/
def resolveLoop (fs : String → Option String) (source : String) :
    Nat → String → String → List Link → Nat → String
  | _, _, s, [], prev => sliceFrom s prev
  | depth, path, s, link :: rest, prev =>
    sliceChars s prev link.start_index ++
    (match renderWithPath fs path link with
     | some newContent =>
       (if _h : depth < MAX_LINK_NESTED_DEPTH then
          match link.link_type.relative_path path with
          | some relPath =>
            resolveLoop fs source (depth + 1) relPath newContent (findLinks newContent) 0
          | none => newContent
        else "") ++ resolveLoop fs source depth path s rest link.end_index
     | none => resolveLoop fs source depth path s rest link.start_index)
termination_by depth _path _s links _prev => (MAX_LINK_NESTED_DEPTH + 1 - depth, links.length)
decreasing_by
  · apply Prod.Lex.left
    omega
  · apply Prod.Lex.right
    simp
  · apply Prod.Lex.right
    simp

/-- Recursive directive resolution (`main.rs` `replace_all`). -/
def replace_all (fs : String → Option String) (s path source : String) (depth : Nat) : String :=
  resolveLoop fs source depth path s (findLinks s) 0

/-! ## Concrete inputs used in the claim analyses -/

/-- File system with a single file `a.rs` containing `hello`. -/
def c1fs : String → Option String := fun p => if p = "a.rs" then some "hello" else none

/-- A text with one include directive between `X` and `Y`. -/
def c1text : String := "X\x7b\x7b#include a.rs\x7d\x7dY"

/-- The link the scanner finds in `c1text`. -/
def c1link : Link :=
  ⟨1, 18, LinkType.Include "a.rs" (RangeOrAnchor.Range LineRange.RangeFull),
    "\x7b\x7b#include a.rs\x7d\x7d"⟩

/-- A self-including file: `A` includes `A`. -/
def selfText : String := "x\x7b\x7b#include A\x7d\x7dy"

/-- File system where file `A` contains `selfText`. -/
def selfFs : String → Option String := fun p => if p = "A" then some selfText else none

/-- The link the scanner finds in `selfText`. -/
def selfLink : Link :=
  ⟨1, 15, LinkType.Include "A" (RangeOrAnchor.Range LineRange.RangeFull),
    "\x7b\x7b#include A\x7d\x7d"⟩

/-- File system with a single file `ok.rs`; `missing.rs` is unreadable. -/
def c3fs : String → Option String := fun p => if p = "ok.rs" then some "X" else none

/-- A text with a failing include followed by a succeeding one. -/
def c3text : String :=
  "A\x7b\x7b#include missing.rs\x7d\x7dB\x7b\x7b#include ok.rs\x7d\x7dC"

/-- First link in `c3text` (its file read fails). -/
def c3link1 : Link :=
  ⟨1, 24, LinkType.Include "missing.rs" (RangeOrAnchor.Range LineRange.RangeFull),
    "\x7b\x7b#include missing.rs\x7d\x7d"⟩

/-- Second link in `c3text` (its file read succeeds). -/
def c3link2 : Link :=
  ⟨25, 43, LinkType.Include "ok.rs" (RangeOrAnchor.Range LineRange.RangeFull),
    "\x7b\x7b#include ok.rs\x7d\x7d"⟩

/-! ## Helper lemmas -/

theorem String.mk_toList (s : String) : String.mk s.toList = s := by
  cases s
  rfl

theorem String.mk_append_mk (a b : List Char) :
    String.mk a ++ String.mk b = String.mk (a ++ b) := rfl

theorem sliceFrom_zero (s : String) : sliceFrom s 0 = s := by
  simp [sliceFrom, String.mk_toList]

/-- Two adjacent slices of the same string glue back together. -/
theorem sliceChars_glue (s : String) (a b : Nat) (hab : a ≤ b) :
    sliceChars s a b ++ sliceFrom s b = sliceFrom s a := by
  rw [sliceChars, sliceFrom, sliceFrom, String.mk_append_mk]
  congr 1
  have hdrop : s.toList.drop b = (s.toList.drop a).drop (b - a) := by
    rw [List.drop_drop]
    congr 1
    omega
  rw [hdrop, List.take_append_drop]

/-- Ordering invariant of a match list: every match starts at or after the
cursor, spans forward, and the next match starts at or after its end. -/
def chainM : Nat → List RMatch → Prop
  | _, [] => True
  | i, m :: ms => i ≤ m.start ∧ m.start ≤ m.stop ∧ chainM m.stop ms

/-- Ordering invariant of a link list, in the same sense. -/
def chainL : Nat → List Link → Prop
  | _, [] => True
  | i, l :: ls => i ≤ l.start_index ∧ l.start_index ≤ l.end_index ∧ chainL l.end_index ls

theorem chainM_mono {i j : Nat} (hij : i ≤ j) :
    ∀ {ms : List RMatch}, chainM j ms → chainM i ms
  | [], _ => trivial
  | _ :: _, h => ⟨le_trans hij h.1, h.2.1, h.2.2⟩

/-- The scanner produces matches in left-to-right, non-overlapping order. -/
theorem scanLinks_chain : ∀ (fuel : Nat) (cs : List Char) (i : Nat),
    chainM i (scanLinks fuel cs i)
  | 0, _, _ => by simp [scanLinks, chainM]
  | _ + 1, [], _ => by simp [scanLinks, chainM]
  | fuel + 1, c :: rest, i => by
    rw [scanLinks]
    cases hesc : matchEscapedAt (c :: rest) with
    | some len =>
      exact ⟨le_refl i, Nat.le_add_right i len, scanLinks_chain fuel _ (i + len)⟩
    | none =>
      cases hinc : matchIncludeAt (c :: rest) with
      | some v =>
        exact ⟨le_refl i, Nat.le_add_right i v.1, scanLinks_chain fuel _ (i + v.1)⟩
      | none =>
        exact chainM_mono (Nat.le_succ i) (scanLinks_chain fuel rest (i + 1))

theorem linkFromMatch_indices {m : RMatch} {l : Link}
    (h : linkFromMatch m = some l) :
    l.start_index = m.start ∧ l.end_index = m.stop := by
  unfold linkFromMatch at h
  repeat' split at h
  all_goals first
    | (cases h; exact ⟨rfl, rfl⟩)
    | simp_all

theorem chainL_of_chainM : ∀ {ms : List RMatch} {i : Nat}, chainM i ms →
    chainL i (ms.filterMap linkFromMatch)
  | [], _, _ => by simp [chainL]
  | m :: ms, i, h => by
    rw [List.filterMap_cons]
    cases hl : linkFromMatch m with
    | some l =>
      have hidx := linkFromMatch_indices hl
      exact ⟨hidx.1 ▸ h.1, by rw [hidx.1, hidx.2]; exact h.2.1,
             hidx.2 ▸ chainL_of_chainM h.2.2⟩
    | none =>
      exact chainL_of_chainM (chainM_mono (le_trans h.1 h.2.1) h.2.2)

/-- The links found in a text are ordered and non-overlapping. -/
theorem findLinks_chain (s : String) : chainL 0 (findLinks s) :=
  chainL_of_chainM (scanLinks_chain s.toList.length s.toList 0)

theorem resolveLoop_nil (fs : String → Option String) (source : String) (depth : Nat)
    (path s : String) (prev : Nat) :
    resolveLoop fs source depth path s [] prev = sliceFrom s prev := by
  rw [resolveLoop]

theorem resolveLoop_fail_cons (fs : String → Option String) (source : String) (depth : Nat)
    (path s : String) (link : Link) (rest : List Link) (prev : Nat)
    (hfail : renderWithPath fs path link = none) :
    resolveLoop fs source depth path s (link :: rest) prev =
      sliceChars s prev link.start_index ++
        resolveLoop fs source depth path s rest link.start_index := by
  rw [resolveLoop]
  simp only [hfail]

theorem chainL_mono {i j : Nat} (hij : i ≤ j) :
    ∀ {ls : List Link}, chainL j ls → chainL i ls
  | [], _ => trivial
  | _ :: _, h => ⟨le_trans hij h.1, h.2.1, h.2.2⟩

/-- When every link of the list fails to render, the loop reproduces the
text from the cursor on unchanged: each gap is emitted verbatim and each
failed link re-emits its own span by moving the cursor to its start. -/
theorem resolveLoop_all_fail (fs : String → Option String) (source : String) (depth : Nat)
    (path s : String) :
    ∀ (links : List Link) (prev : Nat), chainL prev links →
      (∀ l ∈ links, renderWithPath fs path l = none) →
      resolveLoop fs source depth path s links prev = sliceFrom s prev
  | [], prev, _, _ => resolveLoop_nil fs source depth path s prev
  | link :: rest, prev, hchain, hfail => by
    rw [resolveLoop_fail_cons fs source depth path s link rest prev
      (hfail link (List.mem_cons_self link rest))]
    rw [resolveLoop_all_fail fs source depth path s rest link.start_index
      (chainL_mono hchain.2.1 hchain.2.2)
      (fun l hl => hfail l (List.mem_cons_of_mem link hl))]
    exact sliceChars_glue s prev link.start_index hchain.1

theorem strAppend_assoc (a b c : String) : a ++ b ++ c = a ++ (b ++ c) := by
  cases a
  cases b
  cases c
  exact congrArg String.mk (List.append_assoc _ _ _)

/-! ## Claims -/

/-- C9: for every text in which the scanner matches no occurrence — in
particular any text with no directive syntax, and any text whose only
brace-directives use a name other than `include` and carry no escape
marker — resolution returns the text unchanged. -/
theorem c9_no_links_identity (fs : String → Option String) (path source : String)
    (depth : Nat) (s : String) (h : findLinks s = []) :
    replace_all fs s path source depth = s := by
  rw [replace_all, h, resolveLoop_nil, sliceFrom_zero]

/-- Witness for C9 at a concrete text whose only brace-directives use the
unknown names `playgroundz` / `baz` (the scanner yields no occurrence). -/
theorem c9_witness :
    replace_all (fun _ => none)
      "Some text with \x7b\x7b#playgroundz ar.rs\x7d\x7d and \x7b\x7bbaz\x7d\x7d..."
      "" "book" 0 =
      "Some text with \x7b\x7b#playgroundz ar.rs\x7d\x7d and \x7b\x7bbaz\x7d\x7d..." :=
  c9_no_links_identity (fun _ => none) "" "book" 0 _ rfl

/-- C8: the selector parser is total — every input produces some valid
`RangeOrAnchor` — and malformed selectors degenerate to permissive values:
empty and colon-only selectors give the full range, non-numeric garbage
becomes an anchor, fields beyond the third are ignored. -/
theorem c8_parser_total :
    (∀ parts : Option String, ∃ r : RangeOrAnchor, parse_range_or_anchor parts = r) ∧
    parse_range_or_anchor none = RangeOrAnchor.Range LineRange.RangeFull ∧
    parse_range_or_anchor (some "") = RangeOrAnchor.Range LineRange.RangeFull ∧
    parse_range_or_anchor (some ":") = RangeOrAnchor.Range LineRange.RangeFull ∧
    parse_range_or_anchor (some "NaN") = RangeOrAnchor.Anchor "NaN" ∧
    parse_range_or_anchor (some "5:10:17:anything:") =
      RangeOrAnchor.Range (LineRange.Range 4 10) :=
  ⟨fun parts => ⟨parse_range_or_anchor parts, rfl⟩, rfl, rfl, rfl, rfl, rfl⟩

/-- C2: the parsed include directive carries NO shift mode — it is only a
path and a `RangeOrAnchor` — and rendering extracts the selected lines
with no shift applied (the leading whitespace of the file content is
intact in the rendered output). This exhibits the divergence from the
claim, which asserts a `Shift` is part of every parsed directive. -/
theorem c2_include_has_no_shift :
    parse_include_path "file.rs:10:20" =
      LinkType.Include "file.rs" (RangeOrAnchor.Range (LineRange.Range 9 20)) ∧
    renderWithPath (fun p => if p = "f" then some "  a\n  b" else none) ""
      ⟨0, 0, parse_include_path "f", "t"⟩ = some "  a\n  b" :=
  ⟨rfl, rfl⟩

/-- C7: degenerate ranges (start at or past the end bound, or at or past
the number of lines) extract nothing, for every shift mode, and an
unbounded-end range returns all lines from the start index to the end of
the source. -/
theorem c7_range_boundaries :
    (∀ (s : String) (a b : Nat) (shift : Shift), b ≤ a →
       take_lines_with_shift s (LineRange.Range a b) shift = "") ∧
    (∀ (s : String) (a b : Nat) (shift : Shift), (rustLines s).length ≤ a →
       take_lines_with_shift s (LineRange.Range a b) shift = "" ∧
       take_lines_with_shift s (LineRange.RangeFrom a) shift = "") ∧
    (∀ (s : String) (a : Nat),
       take_lines_with_shift s (LineRange.RangeFrom a) Shift.None =
         joinNL ((rustLines s).drop a)) := by
  refine ⟨?_, ?_, ?_⟩
  · intro s a b shift hba
    have hz : b - a = 0 := by omega
    simp [take_lines_with_shift, LineRange.startBound, LineRange.endBound, hz,
      shift_lines, joinNL]
  · intro s a b shift hlen
    have hnil : (rustLines s).drop a = [] := List.drop_eq_nil_of_le hlen
    constructor <;>
      simp [take_lines_with_shift, LineRange.startBound, LineRange.endBound, hnil,
        shift_lines, joinNL]
  · intro s a
    simp only [take_lines_with_shift, LineRange.startBound, LineRange.endBound]
    congr 1
    simp [shift_lines, calculate_shift, shift_line]

/-- C5 counterexample: on lines whose common leading whitespace is a
NO-BREAK SPACE (a whitespace character whose UTF-8 encoding is two bytes),
`Auto` does NOT behave as `Left(k)` for `k` the length (character count)
of the common whitespace prefix: the code computes the BYTE length and so
strips two characters instead of one. -/
theorem c5_counterexample :
    (common_leading_ws ["\u00A0a", "\u00A0b"]).length = 1 ∧
    shift_lines ["\u00A0a", "\u00A0b"] Shift.Auto ≠
      shift_lines ["\u00A0a", "\u00A0b"]
        (Shift.Left (common_leading_ws ["\u00A0a", "\u00A0b"]).length) := by
  constructor
  · rfl
  · decide

/-- C5 as amended: `Auto` behaves as `Left(k)` where `k` is the UTF-8 BYTE
length of the longest whitespace prefix common to all non-empty lines
(equal to the character count whenever that prefix is ASCII); when the
common prefix is empty, `Auto` leaves every line unchanged; empty lines
are kept in the output (the line count is preserved). -/
theorem c5_auto_is_left_bytelen (lines : List String) :
    shift_lines lines Shift.Auto =
      shift_lines lines (Shift.Left (utf8Len (common_leading_ws lines))) ∧
    (common_leading_ws lines = [] → shift_lines lines Shift.Auto = lines) ∧
    (shift_lines lines Shift.Auto).length = lines.length := by
  refine ⟨rfl, ?_, ?_⟩
  · intro h
    simp only [shift_lines, calculate_shift, h]
    have hz : utf8Len [] = 0 := rfl
    rw [hz]
    have hid : ∀ l : String, shift_line l (ExplicitShift.Left 0) = l := by
      intro l
      simp [shift_line, String.mk_toList]
    simp [hid]
  · simp [shift_lines]

/-- Witness for C5: on lines with no common leading whitespace, `Auto` is
a no-op. -/
theorem c5_witness : shift_lines ["a", " b"] Shift.Auto = ["a", " b"] :=
  (c5_auto_is_left_bytelen ["a", " b"]).2.1 rfl

/-- C4 counterexample: on a file whose anchor `a` has a second start
marker before the end marker, the line `X` captured between the two start
markers is NOT discarded — the output is `X\nY`, not the `Y` the claim's
restart-and-discard reading predicts. -/
theorem c4_counterexample :
    take_anchored_lines_with_shift "ANCHOR: a\nX\nANCHOR: a\nY\nANCHOR_END: a\nZ"
      "a" Shift.None = "X\nY" ∧
    ¬ ("X\nY" = "Y") := by
  constructor
  · rfl
  · decide

/-- C4 as amended: while capture is active, a line holding a further start
marker (for any anchor) is swallowed — the marker line itself is never
emitted — and capture simply CONTINUES with the already-captured lines
retained; the initial matching start marker line is likewise not emitted.
The third conjunct replays the repository's own double-start-marker test:
the line between the two start markers stays in the output. -/
theorem c4_second_start_marker_continues :
    (∀ (anchor l : String) (rest : List String),
       findAnchorCapture endMarker l.toList = none →
       (findAnchorCapture startMarker l.toList).isSome = true →
       anchoredLoop anchor (l :: rest) true = anchoredLoop anchor rest true) ∧
    (∀ (anchor l : String) (rest : List String),
       findAnchorCapture startMarker l.toList = some anchor →
       anchoredLoop anchor (l :: rest) false = anchoredLoop anchor rest true) ∧
    take_anchored_lines_with_shift
      "  Lorem\n  ANCHOR: test\n  ipsum\n  ANCHOR: test\n  dolor\n\n\n  sit\n  amet\n  ANCHOR_END: test\n  lorem\n  ipsum"
      "test" Shift.None = "  ipsum\n  dolor\n\n\n  sit\n  amet" := by
  refine ⟨?_, ?_, rfl⟩
  · intro anchor l rest hend hstart
    rw [anchoredLoop]
    simp only [hend, hstart, if_true]
  · intro anchor l rest hstart
    rw [anchoredLoop]
    simp only [hstart]
    simp

/-- Witness for C4: a second start-marker line inside an active capture is
dropped and capture continues. -/
theorem c4_witness : anchoredLoop "q" ["ANCHOR: z", "w"] true = ["w"] := by
  rw [c4_second_start_marker_continues.1 "q" "ANCHOR: z" ["w"] rfl rfl]
  rfl

/-- A `takeWhile` over a list all of whose elements satisfy the predicate
is the whole list. -/
theorem takeWhile_all {p : Char → Bool} :
    ∀ (cs : List Char), (∀ c ∈ cs, p c) → cs.takeWhile p = cs
  | [], _ => rfl
  | c :: cs, h => by
    rw [List.takeWhile_cons, if_pos (h c (List.mem_cons_self c cs))]
    rw [takeWhile_all cs (fun x hx => h x (List.mem_cons_of_mem c hx))]

/-- A colon-free string is not split by `splitn`. -/
theorem splitnColon_noColon (cs : List Char) (h : ∀ c ∈ cs, ¬ (c = ':')) :
    splitnColon 3 cs = [String.mk cs] := by
  show splitnColon (1 + 2) cs = [String.mk cs]
  rw [splitnColon]
  have htake : cs.takeWhile (fun c => ¬ (c = ':')) = cs := by
    refine takeWhile_all cs ?_
    intro c hc
    simp [h c hc]
  rw [htake, List.drop_length]

/-- A string accepted by `usize::from_str` contains no colon: it is an
optional `+` followed by ASCII digits. -/
theorem parseUsize_noColon {s : String} {n : Nat} (h : parseUsize s = some n) :
    ∀ c ∈ s.toList, ¬ (c = ':') := by
  intro c hc hcolon
  subst hcolon
  unfold parseUsize at h
  simp only [] at h
  by_cases hplus : s.toList.head? = some '+'
  · rw [if_pos hplus] at h
    split at h
    · cases h
    · split at h
      · rename_i hall
        rcases hhead : s.toList with _ | ⟨c0, rest⟩
        · rw [hhead] at hc
          cases hc
        · rw [hhead] at hc hall hplus
          simp only [List.head?_cons, Option.some.injEq] at hplus
          subst hplus
          rcases List.mem_cons.mp hc with hc | hc
          · cases hc
          · have := List.all_eq_true.mp (by simpa using hall) ':' hc
            simp [Char.isDigit] at this
      · cases h
  · rw [if_neg hplus] at h
    split at h
    · cases h
    · split at h
      · rename_i hall
        have := List.all_eq_true.mp hall ':' hc
        simp [Char.isDigit] at this
      · cases h

/-- C6: a numeric first selector field is converted from a 1-based line
number to a 0-based start via a saturating decrement, giving a single-line
range; in particular `0` is accepted (not rejected) and produces exactly
the same range `0..1` as `1`. -/
theorem c6_zero_line_number :
    parse_range_or_anchor (some "0") = RangeOrAnchor.Range (LineRange.Range 0 1) ∧
    parse_range_or_anchor (some "0") = parse_range_or_anchor (some "1") ∧
    (∀ (s : String) (n : Nat), parseUsize s = some n →
       parse_range_or_anchor (some s) =
         RangeOrAnchor.Range (LineRange.Range (n - 1) (n - 1 + 1))) := by
  refine ⟨rfl, rfl, ?_⟩
  intro s n h
  unfold parse_range_or_anchor
  rw [show (some s).getD "" = s from rfl]
  rw [splitnColon_noColon s.toList (parseUsize_noColon h), String.mk_toList]
  simp only [List.head?_cons, h]
  simp

/-- Witness for C6: the selector `7` parses, via the general 1-based to
0-based conversion, to the single-line range `6..7`. -/
theorem c6_witness :
    parse_range_or_anchor (some "7") = RangeOrAnchor.Range (LineRange.Range 6 7) :=
  c6_zero_line_number.2.2 "7" 7 rfl

/-- C10: an escaped directive renders to its matched text with exactly the
one leading escape character removed, for EVERY file system (so no file is
read); it has no relative path, and below the depth ceiling the resolver
splices the rendered text directly into the output without recursive
re-expansion. -/
theorem c10_escaped_render (fs : String → Option String) (base : String) (l : Link)
    (h : l.link_type = LinkType.Escaped) :
    renderWithPath fs base l = some (String.mk (l.link_text.toList.drop 1)) ∧
    l.link_type.relative_path base = none ∧
    (∀ (source : String) (depth : Nat) (path s : String) (rest : List Link) (prev : Nat),
       depth < MAX_LINK_NESTED_DEPTH →
       resolveLoop fs source depth path s (l :: rest) prev =
         sliceChars s prev l.start_index ++
           (String.mk (l.link_text.toList.drop 1) ++
             resolveLoop fs source depth path s rest l.end_index)) := by
  have hrel : l.link_type.relative_path base = none := by
    rw [h]
    rfl
  refine ⟨by simp [renderWithPath, h], hrel, ?_⟩
  intro source depth path s rest prev hdepth
  have hren : renderWithPath fs path l = some (String.mk (l.link_text.toList.drop 1)) := by
    simp [renderWithPath, h]
  have hrelp : l.link_type.relative_path path = none := by
    rw [h]
    rfl
  rw [resolveLoop]
  simp only [hren, hrelp]
  rw [dif_pos hdepth]

/-- Witness for C10 at the repository's own escaped-link test input. -/
theorem c10_witness :
    renderWithPath (fun _ => none) ""
      ⟨41, 74, LinkType.Escaped, "\\\x7b\x7b#playground file.rs editable\x7d\x7d"⟩ =
      some "\x7b\x7b#playground file.rs editable\x7d\x7d" := by
  rw [(c10_escaped_render (fun _ => none) ""
    ⟨41, 74, LinkType.Escaped, "\\\x7b\x7b#playground file.rs editable\x7d\x7d"⟩ rfl).1]
  rfl

/-- C3: failed file reads never fail the block. If every occurrence's read
fails, resolution is the identity — each original matched directive text
is preserved verbatim at its position with all surrounding text intact —
and (second conjunct, on `c3text`) a failing occurrence still lets later
occurrences be processed: the failing directive stays as literal text
while the following include is expanded. -/
theorem c3_failed_include_preserved :
    (∀ (fs : String → Option String) (path source : String) (depth : Nat) (s : String),
       (∀ l ∈ findLinks s, renderWithPath fs path l = none) →
       replace_all fs s path source depth = s) ∧
    replace_all c3fs c3text "" "book" 0 =
      "A\x7b\x7b#include missing.rs\x7d\x7dBXC" := by
  constructor
  · intro fs path source depth s hfail
    rw [replace_all,
      resolveLoop_all_fail fs source depth path s (findLinks s) 0 (findLinks_chain s) hfail,
      sliceFrom_zero]
  · have hlinks : findLinks c3text = [c3link1, c3link2] := rfl
    have h1 : renderWithPath c3fs "" c3link1 = none := rfl
    have h2 : renderWithPath c3fs "" c3link2 = some "X" := rfl
    have hrel : c3link2.link_type.relative_path "" = some "" := rfl
    have hX : findLinks "X" = [] := rfl
    rw [replace_all, hlinks, resolveLoop_fail_cons c3fs "book" 0 "" c3text c3link1 [c3link2] 0 h1]
    rw [resolveLoop]
    simp only [h2, hrel]
    rw [dif_pos (by decide : (0:Nat) < MAX_LINK_NESTED_DEPTH)]
    rw [hX, resolveLoop_nil, resolveLoop_nil]
    rfl

/-- Witness for C3: with no readable file at all, a block holding one
include directive resolves to itself, the directive text preserved. -/
theorem c3_witness :
    replace_all (fun _ => none) "A\x7b\x7b#include missing.rs\x7d\x7dB" "" "book" 0 =
      "A\x7b\x7b#include missing.rs\x7d\x7dB" := by
  refine c3_failed_include_preserved.1 (fun _ => none) "" "book" 0 _ ?_
  intro l hl
  have hlinks : findLinks "A\x7b\x7b#include missing.rs\x7d\x7dB" =
      [⟨1, 24, LinkType.Include "missing.rs" (RangeOrAnchor.Range LineRange.RangeFull),
        "\x7b\x7b#include missing.rs\x7d\x7d"⟩] := rfl
  rw [hlinks] at hl
  rcases List.mem_singleton.mp hl with rfl
  rfl

/-- C1 counterexample: at the depth ceiling (10), the single include in
`c1text` renders successfully to `hello`, yet the resolver's output is
`XY` — the rendered content is dropped entirely, not appended unmodified
as the claim states. -/
theorem c1_counterexample :
    renderWithPath c1fs "" c1link = some "hello" ∧
    replace_all c1fs c1text "" "book" MAX_LINK_NESTED_DEPTH = "XY" ∧
    containsSeg "hello".toList
      (replace_all c1fs c1text "" "book" MAX_LINK_NESTED_DEPTH).toList = false := by
  have hren : renderWithPath c1fs "" c1link = some "hello" := rfl
  have hout : replace_all c1fs c1text "" "book" MAX_LINK_NESTED_DEPTH = "XY" := by
    have hlinks : findLinks c1text = [c1link] := rfl
    rw [replace_all, hlinks, resolveLoop]
    simp only [hren]
    rw [dif_neg (by decide : ¬ MAX_LINK_NESTED_DEPTH < MAX_LINK_NESTED_DEPTH)]
    rw [resolveLoop_nil]
    rfl
  exact ⟨hren, hout, by rw [hout]; rfl⟩

/-- One successful expansion step of the self-including file below the
depth ceiling: the resolver emits `x`, recurses at depth `k + 1`, and
emits `y`. -/
theorem selfText_step (k : Nat) (hk : k < MAX_LINK_NESTED_DEPTH) :
    replace_all selfFs selfText "" "book" k =
      "x" ++ replace_all selfFs selfText "" "book" (k + 1) ++ "y" := by
  have hlinks : findLinks selfText = [selfLink] := rfl
  have hren : renderWithPath selfFs "" selfLink = some selfText := rfl
  have hrel : selfLink.link_type.relative_path "" = some "" := rfl
  rw [replace_all, hlinks, resolveLoop]
  simp only [hren, hrel]
  rw [dif_pos hk]
  rw [resolveLoop_nil]
  rw [show sliceChars selfText 0 selfLink.start_index = "x" from rfl]
  rw [show sliceFrom selfText selfLink.end_index = "y" from rfl]
  rw [replace_all, hlinks]
  rw [strAppend_assoc]

/-- At the depth ceiling the rendered content of the self-include is
dropped and only the surrounding text remains. -/
theorem selfText_base :
    replace_all selfFs selfText "" "book" MAX_LINK_NESTED_DEPTH = "xy" := by
  have hlinks : findLinks selfText = [selfLink] := rfl
  have hren : renderWithPath selfFs "" selfLink = some selfText := rfl
  rw [replace_all, hlinks, resolveLoop]
  simp only [hren]
  rw [dif_neg (by decide : ¬ MAX_LINK_NESTED_DEPTH < MAX_LINK_NESTED_DEPTH)]
  rw [resolveLoop_nil]
  rfl

/-- Closed form of resolving the self-including file from depth `k`:
`11 - k` copies of `x` then `11 - k` copies of `y`. -/
theorem selfText_resolved : ∀ (m k : Nat), k + m = MAX_LINK_NESTED_DEPTH →
    replace_all selfFs selfText "" "book" k =
      String.mk (List.replicate (m + 1) 'x') ++ String.mk (List.replicate (m + 1) 'y')
  | 0, k, h => by
    have hk : k = MAX_LINK_NESTED_DEPTH := by omega
    subst hk
    rw [selfText_base]
    rfl
  | m + 1, k, h => by
    have hk : k < MAX_LINK_NESTED_DEPTH := by omega
    have hrep : ∀ (j : Nat) (a : Char), List.replicate j a ++ [a] = a :: List.replicate j a := by
      intro j a
      rw [← List.replicate_succ', List.replicate_succ]
    rw [selfText_step k hk, selfText_resolved m (k + 1) (by omega)]
    rw [show ("x" : String) = String.mk ['x'] from rfl,
        show ("y" : String) = String.mk ['y'] from rfl]
    simp only [String.mk_append_mk]
    congr 1
    simp [List.replicate_succ, List.append_assoc, hrep]

/-- C1 as amended: when the recursion depth counter has reached the
ceiling (10), a successfully rendered occurrence contributes NOTHING to
the output (the rendered content is discarded; the cycle diagnostic is a
log side effect); consequently resolving a self-including file terminates
with the file's surrounding literal content repeated once per allowed
depth and the innermost directive replaced by the empty string. -/
theorem c1_ceiling_discards :
    (∀ (fs : String → Option String) (source : String) (depth : Nat) (path s : String)
       (link : Link) (rest : List Link) (prev : Nat) (c : String),
       MAX_LINK_NESTED_DEPTH ≤ depth →
       renderWithPath fs path link = some c →
       resolveLoop fs source depth path s (link :: rest) prev =
         sliceChars s prev link.start_index ++
           resolveLoop fs source depth path s rest link.end_index) ∧
    (∀ k, k ≤ MAX_LINK_NESTED_DEPTH →
       replace_all selfFs selfText "" "book" k =
         String.mk (List.replicate (MAX_LINK_NESTED_DEPTH + 1 - k) 'x') ++
           String.mk (List.replicate (MAX_LINK_NESTED_DEPTH + 1 - k) 'y')) := by
  constructor
  · intro fs source depth path s link rest prev c hdepth hren
    rw [resolveLoop]
    simp only [hren]
    rw [dif_neg (by omega)]
    simp
  · intro k hk
    have h := selfText_resolved (MAX_LINK_NESTED_DEPTH - k) k (by omega)
    have heq : MAX_LINK_NESTED_DEPTH - k + 1 = MAX_LINK_NESTED_DEPTH + 1 - k := by omega
    rw [heq] at h
    exact h

/-- Witness for C1: from depth 0 the self-including file resolves to
eleven `x`s followed by eleven `y`s — finite output, cycle cut off. -/
theorem c1_witness :
    replace_all selfFs selfText "" "book" 0 = "xxxxxxxxxxxyyyyyyyyyyy" := by
  rw [c1_ceiling_discards.2 0 (by decide)]
  rfl

/-- Witness for C7: the reversed range `4..3` extracts nothing, and an
unbounded-end range reads from the start index to the end of the file. -/
theorem c7_witness :
    take_lines_with_shift "  Lorem\n  ipsum" (LineRange.Range 4 3) Shift.None = "" ∧
    take_lines_with_shift "  Lorem\n  ipsum" (LineRange.RangeFrom 1) Shift.None = "  ipsum" := by
  constructor
  · exact c7_range_boundaries.1 "  Lorem\n  ipsum" 4 3 Shift.None (by decide)
  · rw [c7_range_boundaries.2.2 "  Lorem\n  ipsum" 1]
    rfl
